import Mathlib

/-!
Verification of the scoreboard library (`src/lib.rs`).

The Rust source is embedded shallowly:

* `Team`, `Game`, `ScoreBoard` mirror the structs of the source.  The Rust
  field `score : u8` is modelled as a `Nat`; every value the code can store
  in it is reduced modulo `2^8 = 256`, exactly where the source performs
  8-bit arithmetic (the `u8` parameters of `update_score`, and the `u8`
  addition inside `Game::get_total_score`).
* `start_time : Instant` is modelled as a `Nat` drawn from a monotone
  counter `clock` carried by the board: `Instant::now()` yields the current
  counter value and the counter then advances, so later starts get strictly
  larger timestamps (only the relative order of `Instant`s is ever used by
  the source).
* A Rust method `fn f(&mut self, ...) -> Result<(), String>` becomes a Lean
  function `ScoreBoard → ... → Except String Unit × ScoreBoard`, returning
  the outcome together with the state of the board after the call.
* `Vec::sort_by` with the source's comparator becomes the stable
  `List.insertionSort` with the same comparator; a stable sort with respect
  to a fixed total preorder has a unique result, so the two agree as
  functions.
-/

namespace Scoreboard

/-- `Team` struct of the source: a name and a score (`u8`, modelled as `Nat`
with all stored values kept below 256). -/
structure Team where
  name : String
  score : Nat
deriving DecidableEq, Repr

/-- `Game` struct of the source: two teams and the start timestamp. -/
structure Game where
  home_team : Team
  away_team : Team
  start_time : Nat
deriving DecidableEq, Repr

instance : Inhabited Game := ⟨⟨⟨"", 0⟩, ⟨"", 0⟩, 0⟩⟩

/-- `Game::get_total_score`: the `u8` sum of both scores.  The source adds
two `u8` values, so the result is the mathematical sum reduced modulo 256
(wrap-around semantics of the 8-bit addition). -/
def Game.get_total_score (g : Game) : Nat :=
  (g.home_team.score + g.away_team.score) % 256

/-- `Display for Team`: `"{name} {score}"`. -/
def Team.toStr (t : Team) : String :=
  t.name ++ " " ++ toString t.score

/-- `Display for Game`: `"{home_team} - {away_team}"`. -/
def Game.toStr (g : Game) : String :=
  g.home_team.toStr ++ " - " ++ g.away_team.toStr

/-- `ScoreBoard` struct of the source plus the timestamp counter that
models `Instant::now()`. -/
structure ScoreBoard where
  data : List Game
  clock : Nat
deriving DecidableEq, Repr

/-- `ScoreBoard::new`. -/
def ScoreBoard.new : ScoreBoard := ⟨[], 0⟩

/-- The membership test of the loop in `find_game_index_of_team`:
does `g` have `team_name` as its home or its away team? -/
def involvesB (g : Game) (team_name : String) : Bool :=
  g.home_team.name == team_name || g.away_team.name == team_name

/-- Index of the first game involving `team_name`, mirroring the
`for (id, game) in self.data.iter().enumerate()` loop of
`find_game_index_of_team`. -/
def findTeamIdx : List Game → String → Option Nat
  | [], _ => none
  | g :: rest, team_name =>
    if involvesB g team_name then some 0
    else (findTeamIdx rest team_name).map (· + 1)

/-- `ScoreBoard::find_game_index_of_team`. -/
def ScoreBoard.find_game_index_of_team (sb : ScoreBoard) (team_name : String) :
    Except String Nat :=
  match findTeamIdx sb.data team_name with
  | some id => Except.ok id
  | none => Except.error ("Couldn\x27t find a game of team " ++ team_name)

/-- `ScoreBoard::find_game_index`: locate the first game involving
`home_name`, then require an exact `(home, away)` role match.  The source
fetches the found index with `.get(game_index).unwrap()`; the index returned
by `find_game_index_of_team` is always in range, so the fetch is modelled
with `getD`. -/
def ScoreBoard.find_game_index (sb : ScoreBoard) (home_name away_name : String) :
    Except String Nat :=
  match sb.find_game_index_of_team home_name with
  | Except.ok game_index =>
    let game := sb.data.getD game_index default
    if game.home_team.name = home_name ∧ game.away_team.name = away_name then
      Except.ok game_index
    else
      Except.error ("Team " ++ home_name ++ " isn\x27t playing with " ++
        away_name ++ " currently")
  | Except.error _ =>
    Except.error ("Couldn\x27t find a game of teams: " ++ home_name ++
      " and " ++ away_name)

/-- The comparator passed to `sort_by` in `ScoreBoard::sort`, verbatim:
higher total score first, and on equal totals the later (fresher) start
first. -/
def gameCmp (a b : Game) : Ordering :=
  if a.get_total_score < b.get_total_score then Ordering.gt
  else if b.get_total_score < a.get_total_score then Ordering.lt
  else if a.start_time < b.start_time then Ordering.gt
  else if b.start_time < a.start_time then Ordering.lt
  else Ordering.eq

/-- `a` may be placed no later than `b` by the comparator: the comparison
does not come out `Ordering.gt`. -/
def gameLe (a b : Game) : Bool :=
  match gameCmp a b with
  | Ordering.gt => false
  | _ => true

/-- `gameLe` as a decidable relation. -/
def gameLeP (a b : Game) : Prop :=
  gameLe a b = true

instance : DecidableRel gameLeP :=
  fun a b => instDecidableEqBool (gameLe a b) true

/-- `Vec::sort_by` with `gameCmp`.  Rust's `sort_by` is a stable sort with
respect to the comparator; a stable sort for a total preorder has a unique
result, so it is modelled by the stable `List.insertionSort`. -/
def sortGames (l : List Game) : List Game :=
  l.insertionSort gameLeP

/-- `ScoreBoard::sort`. -/
def ScoreBoard.sort (sb : ScoreBoard) : ScoreBoard :=
  ⟨sortGames sb.data, sb.clock⟩

/-- `ScoreBoard::check_if_currently_playing`: `name_1` is checked before
`name_2`. -/
def ScoreBoard.check_if_currently_playing (sb : ScoreBoard) (name_1 name_2 : String) :
    Except String Unit :=
  match sb.find_game_index_of_team name_1 with
  | Except.ok _ => Except.error (name_1 ++ " is currently playing a game")
  | Except.error _ =>
    match sb.find_game_index_of_team name_2 with
    | Except.ok _ => Except.error (name_2 ++ " is currently playing a game")
    | Except.error _ => Except.ok ()

/-- `ScoreBoard::start_game`. -/
def ScoreBoard.start_game (sb : ScoreBoard) (home away : String) :
    Except String Unit × ScoreBoard :=
  if home = away then
    (Except.error (home ++ " cannot play with itself"), sb)
  else
    match sb.check_if_currently_playing home away with
    | Except.error e => (Except.error e, sb)
    | Except.ok _ =>
      (Except.ok (),
        ScoreBoard.sort ⟨sb.data ++ [⟨⟨home, 0⟩, ⟨away, 0⟩, sb.clock⟩], sb.clock + 1⟩)

/-- `ScoreBoard::update_score`.  The two new scores are `u8` parameters in
the source, hence reduced modulo 256 here. -/
def ScoreBoard.update_score (sb : ScoreBoard) (home : String) (new_home_score : Nat)
    (away : String) (new_away_score : Nat) : Except String Unit × ScoreBoard :=
  match sb.find_game_index home away with
  | Except.ok game_index =>
    let old_game := sb.data.getD game_index default
    let new_game : Game :=
      ⟨⟨home, new_home_score % 256⟩, ⟨away, new_away_score % 256⟩, old_game.start_time⟩
    (Except.ok (), ScoreBoard.sort ⟨sb.data.set game_index new_game, sb.clock⟩)
  | Except.error _ =>
    (Except.error "Couldn\x27t find a game for update", sb)

/-- `ScoreBoard::finish_game`. -/
def ScoreBoard.finish_game (sb : ScoreBoard) (home away : String) :
    Except String Unit × ScoreBoard :=
  match sb.find_game_index home away with
  | Except.ok game_index =>
    (Except.ok (), ScoreBoard.sort ⟨sb.data.eraseIdx game_index, sb.clock⟩)
  | Except.error _ =>
    (Except.error "Couldn\x27t find a game for removal", sb)

/-- `ScoreBoard::get_summary`: the push loop over `self.data`. -/
def ScoreBoard.get_summary (sb : ScoreBoard) : List String :=
  sb.data.foldl (fun result game => result ++ [game.toStr]) []

/-- One call of the public mutating API. -/
inductive Op where
  | start (home away : String)
  | update (home : String) (new_home_score : Nat) (away : String) (new_away_score : Nat)
  | finish (home away : String)
deriving DecidableEq, Repr

/-- Dispatch one operation. -/
def ScoreBoard.applyOp (sb : ScoreBoard) : Op → Except String Unit × ScoreBoard
  | Op.start h a => sb.start_game h a
  | Op.update h hs a as2 => sb.update_score h hs a as2
  | Op.finish h a => sb.finish_game h a

/-- The board reached from a fresh board by a sequence of operations
(failing calls leave the board as it was, per the code paths). -/
def runOps (ops : List Op) : ScoreBoard :=
  ops.foldl (fun sb op => (sb.applyOp op).snd) ScoreBoard.new

/-- Every call in the sequence returns `Ok`. -/
def opsSucceed : ScoreBoard → List Op → Prop
  | _, [] => True
  | sb, op :: rest =>
    (sb.applyOp op).fst = Except.ok () ∧ opsSucceed (sb.applyOp op).snd rest

instance : DecidableEq (Except String Unit) := fun x y =>
  match x, y with
  | Except.ok u, Except.ok v => isTrue (by cases u; cases v; rfl)
  | Except.error e, Except.error f =>
    if h : e = f then isTrue (by rw [h]) else isFalse (fun hc => h (by cases hc; rfl))
  | Except.ok _, Except.error _ => isFalse (fun hc => Except.noConfusion hc)
  | Except.error _, Except.ok _ => isFalse (fun hc => Except.noConfusion hc)

/-- `opsSucceed` is decidable, so concrete operation sequences can be
checked by evaluation. -/
def decOpsSucceed : (sb : ScoreBoard) → (l : List Op) → Decidable (opsSucceed sb l)
  | _, [] => isTrue trivial
  | sb, op :: rest =>
    haveI h2 : Decidable (opsSucceed (sb.applyOp op).snd rest) := decOpsSucceed _ rest
    instDecidableAnd

instance (sb : ScoreBoard) (l : List Op) : Decidable (opsSucceed sb l) :=
  decOpsSucceed sb l

/-- Is `n` the home or away name of any game on the board?  (Specification
view of the scan done by `find_game_index_of_team`.) -/
def ScoreBoard.hasTeam (sb : ScoreBoard) (n : String) : Bool :=
  sb.data.any (fun g => involvesB g n)

/-- Two starts followed by an update whose two in-range scores sum past 255:
the `u8` addition inside `Game::get_total_score` overflows on the resulting
board. -/
def overflowOps : List Op :=
  [Op.start "M" "C", Op.start "S" "B", Op.update "M" 200 "C" 100]

/-- Extending `overflowOps` with one more update makes the comparator order
the wrapped totals (44 and 100) in a way that reverses the order of the
mathematical totals (300 and 100). -/
def unsortedSumOps : List Op :=
  overflowOps ++ [Op.update "S" 50 "B" 50]

/-- A start followed by an update that carries the out-of-`u8`-range value
256. -/
def wrapOps : List Op :=
  [Op.start "A" "B", Op.update "A" 256 "B" 0]

/-- The two games share no team name in either role. -/
def gamesDisjoint (a b : Game) : Prop :=
  a.home_team.name ≠ b.home_team.name ∧ a.home_team.name ≠ b.away_team.name ∧
  a.away_team.name ≠ b.home_team.name ∧ a.away_team.name ≠ b.away_team.name

/-- Invariant of every reachable board: pairwise team exclusivity, no
self-play, sortedness with respect to the comparator, pairwise distinct
timestamps, timestamps below the clock, and `u8`-bounded scores. -/
structure Inv (sb : ScoreBoard) : Prop where
  disj : sb.data.Pairwise gamesDisjoint
  selfNe : ∀ g ∈ sb.data, g.home_team.name ≠ g.away_team.name
  sorted : sb.data.Pairwise gameLeP
  startsNe : sb.data.Pairwise (fun a b => a.start_time ≠ b.start_time)
  startsLt : ∀ g ∈ sb.data, g.start_time < sb.clock
  scoresLe : ∀ g ∈ sb.data, g.home_team.score ≤ 255 ∧ g.away_team.score ≤ 255

theorem involvesB_iff (g : Game) (n : String) :
    involvesB g n = true ↔ (g.home_team.name = n ∨ g.away_team.name = n) := by
  simp [involvesB]

theorem findTeamIdx_none_iff (l : List Game) (n : String) :
    findTeamIdx l n = none ↔ ∀ g ∈ l, involvesB g n = false := by
  induction l with
  | nil => simp [findTeamIdx]
  | cons g rest ih =>
    by_cases h : involvesB g n = true
    · simp [findTeamIdx, h]
    · have h' : involvesB g n = false := by simpa using h
      rw [findTeamIdx, if_neg h, Option.map_eq_none', ih, List.forall_mem_cons, h']
      simp

theorem findTeamIdx_some (l : List Game) (n : String) (i : Nat)
    (h : findTeamIdx l n = some i) :
    i < l.length ∧ involvesB (l.getD i default) n = true := by
  induction l generalizing i with
  | nil => simp [findTeamIdx] at h
  | cons g rest ih =>
    rw [findTeamIdx] at h
    by_cases hg : involvesB g n = true
    · rw [if_pos hg] at h
      simp only [Option.some.injEq] at h
      subst h
      exact ⟨Nat.succ_pos _, by simpa using hg⟩
    · rw [if_neg hg] at h
      cases hf : findTeamIdx rest n with
      | none => rw [hf] at h; simp at h
      | some j =>
        rw [hf] at h
        simp only [Option.map_some', Option.some.injEq] at h
        subst h
        rcases ih j hf with ⟨hlen, hinv⟩
        exact ⟨Nat.succ_lt_succ hlen, by simpa using hinv⟩

theorem findTeamIdx_isSome (l : List Game) (n : String) (g : Game)
    (hg : g ∈ l) (hi : involvesB g n = true) : ∃ i, findTeamIdx l n = some i := by
  cases hf : findTeamIdx l n with
  | some i => exact ⟨i, rfl⟩
  | none =>
    have := (findTeamIdx_none_iff l n).mp hf g hg
    rw [hi] at this
    exact absurd this (by simp)

theorem getD_mem_of_lt (l : List Game) (i : Nat) (h : i < l.length) :
    l.getD i default ∈ l := by
  induction l generalizing i with
  | nil => simp at h
  | cons g rest ih =>
    cases i with
    | zero => simp
    | succ j =>
      simp only [List.getD_cons_succ]
      exact List.mem_cons_of_mem _ (ih j (by simpa using h))

theorem gameLe_iff (a b : Game) :
    gameLe a b = true ↔
      (b.get_total_score < a.get_total_score ∨
        (a.get_total_score = b.get_total_score ∧ b.start_time ≤ a.start_time)) := by
  unfold gameLe gameCmp
  split_ifs <;> simp <;> omega

theorem gameLe_total (a b : Game) : (gameLe a b || gameLe b a) = true := by
  rw [Bool.or_eq_true, gameLe_iff, gameLe_iff]
  omega

theorem gameLe_trans (a b c : Game) (hab : gameLe a b = true) (hbc : gameLe b c = true) :
    gameLe a c = true := by
  rw [gameLe_iff] at hab hbc ⊢
  omega

theorem gameLe_antisymm_keys (a b : Game) (hab : gameLe a b = true) (hba : gameLe b a = true) :
    a.get_total_score = b.get_total_score ∧ a.start_time = b.start_time := by
  rw [gameLe_iff] at hab hba
  omega

theorem gameLeP_total : ∀ a b : Game, gameLeP a b ∨ gameLeP b a := by
  intro a b
  have := gameLe_total a b
  rcases Bool.or_eq_true_iff.mp this with h | h
  · exact Or.inl h
  · exact Or.inr h

theorem sortGames_perm (l : List Game) : List.Perm (sortGames l) l :=
  List.perm_insertionSort gameLeP l

theorem sortGames_sorted (l : List Game) : (sortGames l).Pairwise gameLeP := by
  haveI : IsTotal Game gameLeP := ⟨gameLeP_total⟩
  haveI : IsTrans Game gameLeP := ⟨fun a b c hab hbc => gameLe_trans a b c hab hbc⟩
  exact List.sorted_insertionSort gameLeP l

theorem sortGames_of_sorted (l : List Game)
    (h : l.Pairwise gameLeP) : sortGames l = l :=
  List.Sorted.insertionSort_eq h

theorem mem_sortGames (g : Game) (l : List Game) : g ∈ sortGames l ↔ g ∈ l :=
  (sortGames_perm l).mem_iff

theorem gamesDisjoint_symm : Symmetric gamesDisjoint := by
  intro a b h
  obtain ⟨h1, h2, h3, h4⟩ := h
  exact ⟨h1.symm, h3.symm, h2.symm, h4.symm⟩

theorem involving_unique (l : List Game) (hdisj : l.Pairwise gamesDisjoint)
    (g₁ g₂ : Game) (h₁ : g₁ ∈ l) (h₂ : g₂ ∈ l) (n : String)
    (hi₁ : involvesB g₁ n = true) (hi₂ : involvesB g₂ n = true) : g₁ = g₂ := by
  by_contra hne
  obtain ⟨d1, d2, d3, d4⟩ := List.Pairwise.forall gamesDisjoint_symm hdisj h₁ h₂ hne
  rw [involvesB_iff] at hi₁ hi₂
  rcases hi₁ with h | h <;> rcases hi₂ with h' | h' <;> simp_all

theorem cons_eraseIdx_perm (l : List Game) (i : Nat) (h : i < l.length) :
    List.Perm (l.getD i default :: l.eraseIdx i) l := by
  induction l generalizing i with
  | nil => simp at h
  | cons g rest ih =>
    cases i with
    | zero => simp
    | succ j =>
      simp only [List.getD_cons_succ, List.eraseIdx_cons_succ]
      exact List.Perm.trans (List.Perm.swap g _ _)
        (List.Perm.cons g (ih j (by simpa using h)))

theorem pairwise_set {R : Game → Game → Prop} (l : List Game) (i : Nat) (x : Game)
    (hfwd : ∀ y, R (l.getD i default) y → R x y)
    (hbwd : ∀ y, R y (l.getD i default) → R y x)
    (h : l.Pairwise R) : (l.set i x).Pairwise R := by
  induction l generalizing i with
  | nil => simp
  | cons g rest ih =>
    cases i with
    | zero =>
      rw [List.set_cons_zero, List.pairwise_cons]
      refine ⟨fun y hy => hfwd y ((List.pairwise_cons.mp h).1 y hy), (List.pairwise_cons.mp h).2⟩
    | succ j =>
      rw [List.set_cons_succ, List.pairwise_cons]
      refine ⟨?_, ih j hfwd hbwd (List.pairwise_cons.mp h).2⟩
      intro y hy
      rcases List.mem_or_eq_of_mem_set hy with hmem | rfl
      · exact (List.pairwise_cons.mp h).1 y hmem
      · by_cases hj : j < rest.length
        · exact hbwd g ((List.pairwise_cons.mp h).1 _ (getD_mem_of_lt rest j hj))
        · rw [List.set_eq_of_length_le (Nat.le_of_not_lt hj)] at hy
          exact (List.pairwise_cons.mp h).1 _ hy

theorem sorted_unique (l₁ l₂ : List Game)
    (hperm : List.Perm l₁ l₂)
    (hs₁ : l₁.Pairwise gameLeP)
    (hs₂ : l₂.Pairwise gameLeP)
    (hne : l₁.Pairwise (fun a b => a.start_time ≠ b.start_time)) :
    l₁ = l₂ := by
  induction l₁ generalizing l₂ with
  | nil => simpa using hperm.nil_eq
  | cons a t ih =>
    cases l₂ with
    | nil => exact absurd hperm.symm.nil_eq (by simp)
    | cons b t' =>
      have hab : a = b := by
        by_contra hne'
        have ha2 : a ∈ b :: t' := hperm.mem_iff.mp (List.mem_cons_self a t)
        have hb1 : b ∈ a :: t := hperm.symm.mem_iff.mp (List.mem_cons_self b t')
        have hat : a ∈ t' := by
          rcases List.mem_cons.mp ha2 with h | h
          · exact absurd h hne'
          · exact h
        have hbt : b ∈ t := by
          rcases List.mem_cons.mp hb1 with h | h
          · exact absurd h.symm hne'
          · exact h
        have hle₁ : gameLe a b = true := (List.pairwise_cons.mp hs₁).1 b hbt
        have hle₂ : gameLe b a = true := (List.pairwise_cons.mp hs₂).1 a hat
        have hstart : a.start_time = b.start_time :=
          (gameLe_antisymm_keys a b hle₁ hle₂).2
        exact (List.pairwise_cons.mp hne).1 b hbt hstart
      subst hab
      have := ih t' hperm.cons_inv (List.pairwise_cons.mp hs₁).2
        (List.pairwise_cons.mp hs₂).2 (List.pairwise_cons.mp hne).2
      rw [this]

theorem hasTeam_false_iff (sb : ScoreBoard) (n : String) :
    sb.hasTeam n = false ↔ ∀ g ∈ sb.data, involvesB g n = false := by
  simp [ScoreBoard.hasTeam]

theorem findTeamIdx_none_iff_hasTeam_false (sb : ScoreBoard) (n : String) :
    findTeamIdx sb.data n = none ↔ sb.hasTeam n = false := by
  rw [findTeamIdx_none_iff, hasTeam_false_iff]

theorem hasTeam_true_of_findTeamIdx_some (sb : ScoreBoard) (n : String) (i : Nat)
    (h : findTeamIdx sb.data n = some i) : sb.hasTeam n = true := by
  cases hht : sb.hasTeam n with
  | true => rfl
  | false =>
    rw [(findTeamIdx_none_iff_hasTeam_false sb n).mpr hht] at h
    exact absurd h (by simp)

theorem check_if_currently_playing_spec (sb : ScoreBoard) (n1 n2 : String) :
    sb.check_if_currently_playing n1 n2 =
      if sb.hasTeam n1 = true then Except.error (n1 ++ " is currently playing a game")
      else if sb.hasTeam n2 = true then Except.error (n2 ++ " is currently playing a game")
      else Except.ok () := by
  unfold ScoreBoard.check_if_currently_playing ScoreBoard.find_game_index_of_team
  cases h1 : findTeamIdx sb.data n1 with
  | some i => simp [hasTeam_true_of_findTeamIdx_some sb n1 i h1]
  | none =>
    have hb1 : sb.hasTeam n1 = false := (findTeamIdx_none_iff_hasTeam_false sb n1).mp h1
    cases h2 : findTeamIdx sb.data n2 with
    | some j => simp [hb1, hasTeam_true_of_findTeamIdx_some sb n2 j h2]
    | none =>
      have hb2 : sb.hasTeam n2 = false := (findTeamIdx_none_iff_hasTeam_false sb n2).mp h2
      simp [hb1, hb2]

theorem start_game_ok_iff (sb : ScoreBoard) (h a : String) :
    (sb.start_game h a).fst = Except.ok () ↔
      h ≠ a ∧ sb.hasTeam h = false ∧ sb.hasTeam a = false := by
  unfold ScoreBoard.start_game
  rw [check_if_currently_playing_spec]
  by_cases hha : h = a
  · simp [hha]
  · cases hbh : sb.hasTeam h with
    | true => simp [hha, hbh]
    | false =>
      cases hba : sb.hasTeam a with
      | true => simp [hha, hbh, hba]
      | false => simp [hha, hbh, hba]

theorem start_game_snd_of_ok (sb : ScoreBoard) (h a : String)
    (hok : (sb.start_game h a).fst = Except.ok ()) :
    (sb.start_game h a).snd =
      ScoreBoard.sort ⟨sb.data ++ [⟨⟨h, 0⟩, ⟨a, 0⟩, sb.clock⟩], sb.clock + 1⟩ := by
  obtain ⟨hne, hbh, hba⟩ := (start_game_ok_iff sb h a).mp hok
  unfold ScoreBoard.start_game
  rw [check_if_currently_playing_spec]
  simp [hne, hbh, hba]

theorem start_game_snd_of_err (sb : ScoreBoard) (h a : String) (e : String)
    (he : (sb.start_game h a).fst = Except.error e) :
    (sb.start_game h a).snd = sb := by
  unfold ScoreBoard.start_game
  rw [check_if_currently_playing_spec]
  by_cases hha : h = a
  · simp [hha]
  · cases hbh : sb.hasTeam h with
    | true => simp [hha, hbh]
    | false =>
      cases hba : sb.hasTeam a with
      | true => simp [hha, hbh, hba]
      | false =>
        exfalso
        have := (start_game_ok_iff sb h a).mpr ⟨hha, hbh, hba⟩
        rw [this] at he
        exact absurd he (by simp)

theorem find_game_index_ok (sb : ScoreBoard) (hn an : String) (i : Nat)
    (hfind : sb.find_game_index hn an = Except.ok i) :
    i < sb.data.length ∧ (sb.data.getD i default).home_team.name = hn ∧
      (sb.data.getD i default).away_team.name = an := by
  unfold ScoreBoard.find_game_index ScoreBoard.find_game_index_of_team at hfind
  cases hf : findTeamIdx sb.data hn with
  | none => rw [hf] at hfind; exact absurd hfind (by simp)
  | some j =>
    rw [hf] at hfind
    by_cases hc : (sb.data.getD j default).home_team.name = hn ∧
        (sb.data.getD j default).away_team.name = an
    · simp only [if_pos hc, Except.ok.injEq] at hfind
      subst hfind
      exact ⟨(findTeamIdx_some sb.data hn j hf).1, hc⟩
    · simp only [if_neg hc] at hfind
      exact absurd hfind (by simp)

theorem find_game_index_complete (sb : ScoreBoard) (hn an : String) (g : Game)
    (hdisj : sb.data.Pairwise gamesDisjoint) (hg : g ∈ sb.data)
    (hh : g.home_team.name = hn) (ha : g.away_team.name = an) :
    ∃ i, sb.find_game_index hn an = Except.ok i ∧ sb.data.getD i default = g := by
  have hi : involvesB g hn = true := (involvesB_iff g hn).mpr (Or.inl hh)
  obtain ⟨i, hf⟩ := findTeamIdx_isSome sb.data hn g hg hi
  obtain ⟨hlen, hinvB⟩ := findTeamIdx_some sb.data hn i hf
  have heq : sb.data.getD i default = g :=
    involving_unique sb.data hdisj _ g (getD_mem_of_lt sb.data i hlen) hg hn hinvB hi
  refine ⟨i, ?_, heq⟩
  unfold ScoreBoard.find_game_index ScoreBoard.find_game_index_of_team
  rw [hf]
  simp only []
  rw [if_pos ⟨heq.symm ▸ hh, heq.symm ▸ ha⟩]

theorem update_score_eq_of_find_ok (sb : ScoreBoard) (h : String) (hs : Nat)
    (a : String) (as2 : Nat) (i : Nat) (hf : sb.find_game_index h a = Except.ok i) :
    sb.update_score h hs a as2 =
      (Except.ok (), ScoreBoard.sort
        ⟨sb.data.set i ⟨⟨h, hs % 256⟩, ⟨a, as2 % 256⟩,
          (sb.data.getD i default).start_time⟩, sb.clock⟩) := by
  unfold ScoreBoard.update_score
  rw [hf]

theorem update_score_eq_of_find_err (sb : ScoreBoard) (h : String) (hs : Nat)
    (a : String) (as2 : Nat) (e : String) (hf : sb.find_game_index h a = Except.error e) :
    sb.update_score h hs a as2 = (Except.error "Couldn\x27t find a game for update", sb) := by
  unfold ScoreBoard.update_score
  rw [hf]

theorem finish_game_eq_of_find_ok (sb : ScoreBoard) (h a : String) (i : Nat)
    (hf : sb.find_game_index h a = Except.ok i) :
    sb.finish_game h a =
      (Except.ok (), ScoreBoard.sort ⟨sb.data.eraseIdx i, sb.clock⟩) := by
  unfold ScoreBoard.finish_game
  rw [hf]

theorem finish_game_eq_of_find_err (sb : ScoreBoard) (h a : String) (e : String)
    (hf : sb.find_game_index h a = Except.error e) :
    sb.finish_game h a = (Except.error "Couldn\x27t find a game for removal", sb) := by
  unfold ScoreBoard.finish_game
  rw [hf]

theorem inv_sort (sb : ScoreBoard)
    (hd : sb.data.Pairwise gamesDisjoint)
    (hself : ∀ g ∈ sb.data, g.home_team.name ≠ g.away_team.name)
    (hne : sb.data.Pairwise (fun a b => a.start_time ≠ b.start_time))
    (hlt : ∀ g ∈ sb.data, g.start_time < sb.clock)
    (hsc : ∀ g ∈ sb.data, g.home_team.score ≤ 255 ∧ g.away_team.score ≤ 255) :
    Inv sb.sort := by
  refine ⟨?_, ?_, ?_, ?_, ?_, ?_⟩
  · exact hd.perm (sortGames_perm sb.data).symm (fun hxy => gamesDisjoint_symm hxy)
  · intro g hg
    exact hself g ((mem_sortGames g sb.data).mp hg)
  · exact sortGames_sorted sb.data
  · exact hne.perm (sortGames_perm sb.data).symm (fun hxy => hxy.symm)
  · intro g hg
    exact hlt g ((mem_sortGames g sb.data).mp hg)
  · intro g hg
    exact hsc g ((mem_sortGames g sb.data).mp hg)

theorem not_involved_of_hasTeam_false (sb : ScoreBoard) (n : String) (g : Game)
    (hb : sb.hasTeam n = false) (hg : g ∈ sb.data) :
    g.home_team.name ≠ n ∧ g.away_team.name ≠ n := by
  have := (hasTeam_false_iff sb n).mp hb g hg
  rw [involvesB] at this
  simp only [Bool.or_eq_false_iff, beq_eq_false_iff_ne, ne_eq] at this
  exact this

theorem inv_start (sb : ScoreBoard) (h a : String) (hinv : Inv sb) :
    Inv (sb.start_game h a).snd := by
  cases hfst : (sb.start_game h a).fst with
  | error e => rw [start_game_snd_of_err sb h a e hfst]; exact hinv
  | ok u =>
    cases u
    rw [start_game_snd_of_ok sb h a hfst]
    obtain ⟨hne, hbh, hba⟩ := (start_game_ok_iff sb h a).mp hfst
    apply inv_sort
    · rw [List.pairwise_append]
      refine ⟨hinv.disj, List.pairwise_singleton _ _, ?_⟩
      intro g hg g' hg'
      rw [List.mem_singleton] at hg'
      subst hg'
      obtain ⟨hh1, ha1⟩ := not_involved_of_hasTeam_false sb h g hbh hg
      obtain ⟨hh2, ha2⟩ := not_involved_of_hasTeam_false sb a g hba hg
      exact ⟨hh1, hh2, ha1, ha2⟩
    · intro g hg
      rcases List.mem_append.mp hg with hg | hg
      · exact hinv.selfNe g hg
      · rw [List.mem_singleton] at hg
        subst hg
        exact hne
    · rw [List.pairwise_append]
      refine ⟨hinv.startsNe, List.pairwise_singleton _ _, ?_⟩
      intro g hg g' hg'
      rw [List.mem_singleton] at hg'
      subst hg'
      exact Nat.ne_of_lt (hinv.startsLt g hg)
    · intro g hg
      rcases List.mem_append.mp hg with hg | hg
      · exact Nat.lt_trans (hinv.startsLt g hg) (Nat.lt_succ_self _)
      · rw [List.mem_singleton] at hg
        subst hg
        exact Nat.lt_succ_self _
    · intro g hg
      rcases List.mem_append.mp hg with hg | hg
      · exact hinv.scoresLe g hg
      · rw [List.mem_singleton] at hg
        subst hg
        refine ⟨?_, ?_⟩ <;> simp

theorem inv_update (sb : ScoreBoard) (h : String) (hs : Nat) (a : String) (as2 : Nat)
    (hinv : Inv sb) : Inv (sb.update_score h hs a as2).snd := by
  cases hf : sb.find_game_index h a with
  | error e => rw [update_score_eq_of_find_err sb h hs a as2 e hf]; exact hinv
  | ok i =>
    rw [update_score_eq_of_find_ok sb h hs a as2 i hf]
    obtain ⟨hlen, hhome, haway⟩ := find_game_index_ok sb h a i hf
    have hmem : sb.data.getD i default ∈ sb.data := getD_mem_of_lt sb.data i hlen
    apply inv_sort
    · refine pairwise_set sb.data i _ ?_ ?_ hinv.disj
      · intro y hy
        obtain ⟨d1, d2, d3, d4⟩ := hy
        exact ⟨hhome ▸ d1, hhome ▸ d2, haway ▸ d3, haway ▸ d4⟩
      · intro y hy
        obtain ⟨d1, d2, d3, d4⟩ := hy
        exact ⟨hhome ▸ d1, haway ▸ d2, hhome ▸ d3, haway ▸ d4⟩
    · intro g hg
      rcases List.mem_or_eq_of_mem_set hg with hg | rfl
      · exact hinv.selfNe g hg
      · have := hinv.selfNe _ hmem
        rw [hhome, haway] at this
        exact this
    · exact pairwise_set sb.data i _ (fun y hy => hy) (fun y hy => hy) hinv.startsNe
    · intro g hg
      rcases List.mem_or_eq_of_mem_set hg with hg | rfl
      · exact hinv.startsLt g hg
      · show (sb.data.getD i default).start_time < sb.clock
        exact hinv.startsLt _ hmem
    · intro g hg
      rcases List.mem_or_eq_of_mem_set hg with hg | rfl
      · exact hinv.scoresLe g hg
      · refine ⟨?_, ?_⟩
        · show hs % 256 ≤ 255
          omega
        · show as2 % 256 ≤ 255
          omega

theorem inv_finish (sb : ScoreBoard) (h a : String) (hinv : Inv sb) :
    Inv (sb.finish_game h a).snd := by
  cases hf : sb.find_game_index h a with
  | error e => rw [finish_game_eq_of_find_err sb h a e hf]; exact hinv
  | ok i =>
    rw [finish_game_eq_of_find_ok sb h a i hf]
    have hsub := List.eraseIdx_sublist sb.data i
    apply inv_sort
    · exact hinv.disj.sublist hsub
    · intro g hg
      exact hinv.selfNe g (hsub.mem hg)
    · exact hinv.startsNe.sublist hsub
    · intro g hg
      exact hinv.startsLt g (hsub.mem hg)
    · intro g hg
      exact hinv.scoresLe g (hsub.mem hg)

theorem inv_applyOp (sb : ScoreBoard) (op : Op) (hinv : Inv sb) :
    Inv (sb.applyOp op).snd := by
  cases op with
  | start h a => exact inv_start sb h a hinv
  | update h hs a as2 => exact inv_update sb h hs a as2 hinv
  | finish h a => exact inv_finish sb h a hinv

theorem inv_new : Inv ScoreBoard.new := by
  refine ⟨?_, ?_, ?_, ?_, ?_, ?_⟩ <;> simp [ScoreBoard.new]

theorem inv_runOps (ops : List Op) : Inv (runOps ops) := by
  have main : ∀ (l : List Op) (sb : ScoreBoard), Inv sb →
      Inv (l.foldl (fun sb op => (sb.applyOp op).snd) sb) := by
    intro l
    induction l with
    | nil => intro sb hsb; exact hsb
    | cons op rest ih =>
      intro sb hsb
      exact ih _ (inv_applyOp sb op hsb)
  exact main ops ScoreBoard.new inv_new

theorem clock_mono (t : ScoreBoard) (op : Op) : t.clock ≤ (t.applyOp op).snd.clock := by
  cases op with
  | start h a =>
    show t.clock ≤ (t.start_game h a).snd.clock
    cases hfst : (t.start_game h a).fst with
    | error e =>
      rw [start_game_snd_of_err t h a e hfst]
    | ok u =>
      cases u
      rw [start_game_snd_of_ok t h a hfst]
      exact Nat.le_succ _
  | update h hs a as2 =>
    show t.clock ≤ (t.update_score h hs a as2).snd.clock
    cases hf : t.find_game_index h a with
    | ok i =>
      rw [update_score_eq_of_find_ok t h hs a as2 i hf]
      exact Nat.le_refl _
    | error e => rw [update_score_eq_of_find_err t h hs a as2 e hf]
  | finish h a =>
    show t.clock ≤ (t.finish_game h a).snd.clock
    cases hf : t.find_game_index h a with
    | ok i =>
      rw [finish_game_eq_of_find_ok t h a i hf]
      exact Nat.le_refl _
    | error e => rw [finish_game_eq_of_find_err t h a e hf]

theorem get_summary_eq_map (sb : ScoreBoard) :
    sb.get_summary = sb.data.map Game.toStr := by
  unfold ScoreBoard.get_summary
  have main : ∀ (l : List Game) (acc : List String),
      l.foldl (fun r g => r ++ [g.toStr]) acc = acc ++ l.map Game.toStr := by
    intro l
    induction l with
    | nil => intro acc; simp
    | cons g t ih => intro acc; simp [ih]
  simpa using main sb.data []

/-- C1 (amended): after every sequence of operations from a fresh board, the
collection — and hence the sequence rendered by `get_summary`, which lists
it in order — is sorted non-increasingly by the combined score as the code
computes it, namely the `u8` sum `(home.score + away.score) % 256`, and
within equal combined scores non-increasingly by start order.  (With the
mathematical sum in place of the `u8` sum the statement is false, see the
counterexample.) -/
theorem sorted_by_wrapped_total_runOps (ops : List Op) :
    (runOps ops).data.Pairwise (fun g₁ g₂ =>
      (g₂.home_team.score + g₂.away_team.score) % 256 <
          (g₁.home_team.score + g₁.away_team.score) % 256 ∨
      ((g₁.home_team.score + g₁.away_team.score) % 256 =
          (g₂.home_team.score + g₂.away_team.score) % 256 ∧
        g₂.start_time ≤ g₁.start_time)) := by
  refine List.Pairwise.imp ?_ (inv_runOps ops).sorted
  intro a b hab
  exact (gameLe_iff a b).mp hab

/-- C1 counterexample: a sequence of four successful operations after which
the board is *not* ordered non-increasingly by the mathematical combined
score `home.score + away.score`: the totals of the two games read `100`
then `300`. -/
theorem sum_order_violated_cex :
    opsSucceed ScoreBoard.new unsortedSumOps ∧
    ((runOps unsortedSumOps).data.map
        (fun g => g.home_team.score + g.away_team.score)) = [100, 300] ∧
    ¬ (runOps unsortedSumOps).data.Pairwise (fun g₁ g₂ =>
        g₂.home_team.score + g₂.away_team.score ≤
          g₁.home_team.score + g₁.away_team.score) := by
  exact ⟨by decide, rfl, by decide⟩

/-- C2: after every sequence of operations from a fresh board, no team name
appears as home or away in more than one game of the collection. -/
theorem team_exclusive_runOps (ops : List Op) :
    (runOps ops).data.Pairwise (fun g₁ g₂ =>
      g₁.home_team.name ≠ g₂.home_team.name ∧ g₁.home_team.name ≠ g₂.away_team.name ∧
      g₁.away_team.name ≠ g₂.home_team.name ∧ g₁.away_team.name ≠ g₂.away_team.name) :=
  (inv_runOps ops).disj

/-- C3 counterexample: scores are `u8` in the source, so they have the
upper bound 255; the value 256 can never be stored.  Passing 256 to
`update_score` (whose parameter is 8 bits wide) stores `256 % 256 = 0`, not
256. -/
theorem score_256_unreachable_cex :
    opsSucceed ScoreBoard.new wrapOps ∧
    ((runOps wrapOps).data.map (fun g => g.home_team.score)) = [0] ∧
    ∀ g ∈ (runOps wrapOps).data, g.home_team.score ≠ 256 := by
  exact ⟨by decide, rfl, by decide⟩

/-- C3 (amended): scores are non-negative integers bounded above by 255
(`u8`): every score stored on any reachable board is at most 255, and for
every value `v ≤ 255` a successful update stores exactly `v`. -/
theorem scores_bounded_and_update_sets (sb : ScoreBoard) (h : String) (hs : Nat)
    (a : String) (as2 : Nat) (hhs : hs ≤ 255) (has2 : as2 ≤ 255)
    (hok : (sb.update_score h hs a as2).fst = Except.ok ()) :
    (∃ g ∈ (sb.update_score h hs a as2).snd.data,
        g.home_team.name = h ∧ g.home_team.score = hs ∧
        g.away_team.name = a ∧ g.away_team.score = as2) ∧
    (∀ ops : List Op, ∀ g ∈ (runOps ops).data,
        g.home_team.score ≤ 255 ∧ g.away_team.score ≤ 255) := by
  constructor
  · cases hf : sb.find_game_index h a with
    | error e =>
      rw [update_score_eq_of_find_err sb h hs a as2 e hf] at hok
      exact absurd hok (by simp)
    | ok i =>
      obtain ⟨hlen, hh, ha⟩ := find_game_index_ok sb h a i hf
      rw [update_score_eq_of_find_ok sb h hs a as2 i hf]
      refine ⟨⟨⟨h, hs % 256⟩, ⟨a, as2 % 256⟩, (sb.data.getD i default).start_time⟩, ?_, ?_⟩
      · show _ ∈ sortGames _
        rw [mem_sortGames]
        exact List.mem_set sb.data i hlen _
      · exact ⟨rfl, Nat.mod_eq_of_lt (by omega), rfl, Nat.mod_eq_of_lt (by omega)⟩
  · intro ops g hg
    exact (inv_runOps ops).scoresLe g hg

/-- C3 witness: on the board where only `A` vs `B` is running, updating to
the in-range scores 7 and 3 stores exactly those values. -/
theorem scores_bounded_and_update_sets_witness :
    ∃ g ∈ ((runOps [Op.start "A" "B"]).update_score "A" 7 "B" 3).snd.data,
      g.home_team.name = "A" ∧ g.home_team.score = 7 ∧
      g.away_team.name = "B" ∧ g.away_team.score = 3 :=
  (scores_bounded_and_update_sets (runOps [Op.start "A" "B"]) "A" 7 "B" 3
    (by decide) (by decide) (by decide)).1

/-- C4: under the reachable-board invariant, `update_score` succeeds exactly
when some game has precisely the given home and away names (a role-swapped
pair is never recovered); on success both scores of that game are replaced,
its start order is preserved, and the collection is re-sorted; when no such
game exists the call fails with the message of the source and the board is
untouched. -/
theorem update_score_spec (sb : ScoreBoard) (h : String) (hs : Nat) (a : String)
    (as2 : Nat) (hinv : Inv sb) :
    ((sb.update_score h hs a as2).fst = Except.ok () ↔
      ∃ g ∈ sb.data, g.home_team.name = h ∧ g.away_team.name = a) ∧
    (∀ i, sb.find_game_index h a = Except.ok i →
      sb.update_score h hs a as2 =
        (Except.ok (), ScoreBoard.sort ⟨sb.data.set i
          ⟨⟨h, hs % 256⟩, ⟨a, as2 % 256⟩, (sb.data.getD i default).start_time⟩,
          sb.clock⟩)) ∧
    ((¬ ∃ g ∈ sb.data, g.home_team.name = h ∧ g.away_team.name = a) →
      sb.update_score h hs a as2 =
        (Except.error "Couldn\x27t find a game for update", sb)) := by
  refine ⟨⟨?_, ?_⟩, ?_, ?_⟩
  · intro hok
    cases hf : sb.find_game_index h a with
    | error e =>
      rw [update_score_eq_of_find_err sb h hs a as2 e hf] at hok
      exact absurd hok (by simp)
    | ok i =>
      obtain ⟨hlen, hh, ha⟩ := find_game_index_ok sb h a i hf
      exact ⟨sb.data.getD i default, getD_mem_of_lt sb.data i hlen, hh, ha⟩
  · rintro ⟨g, hg, hh, ha⟩
    obtain ⟨i, hf, hgi⟩ := find_game_index_complete sb h a g hinv.disj hg hh ha
    rw [update_score_eq_of_find_ok sb h hs a as2 i hf]
  · intro i hf
    exact update_score_eq_of_find_ok sb h hs a as2 i hf
  · intro hnone
    cases hf : sb.find_game_index h a with
    | ok i =>
      obtain ⟨hlen, hh, ha⟩ := find_game_index_ok sb h a i hf
      exact absurd ⟨sb.data.getD i default, getD_mem_of_lt sb.data i hlen, hh, ha⟩ hnone
    | error e => exact update_score_eq_of_find_err sb h hs a as2 e hf

/-- C4 witness: with only `A` vs `B` running, the update addressed to the
exact pair succeeds. -/
theorem update_score_spec_witness :
    ((runOps [Op.start "A" "B"]).update_score "A" 4 "B" 5).fst = Except.ok () :=
  ((update_score_spec (runOps [Op.start "A" "B"]) "A" 4 "B" 5 (inv_runOps _)).1).mpr
    ⟨⟨⟨"A", 0⟩, ⟨"B", 0⟩, 0⟩, by decide, rfl, rfl⟩

/-- C5: whenever a call to start, update or finish returns an error, the
board after the call is exactly the board before it. -/
theorem error_leaves_board_unchanged (sb : ScoreBoard) (op : Op) (e : String)
    (he : (sb.applyOp op).fst = Except.error e) : (sb.applyOp op).snd = sb := by
  cases op with
  | start h a => exact start_game_snd_of_err sb h a e he
  | update h hs a as2 =>
    show (sb.update_score h hs a as2).snd = sb
    cases hf : sb.find_game_index h a with
    | ok i =>
      have heq := update_score_eq_of_find_ok sb h hs a as2 i hf
      have : (sb.update_score h hs a as2).fst = Except.ok () := by rw [heq]
      rw [show (sb.applyOp (Op.update h hs a as2)).fst =
        (sb.update_score h hs a as2).fst from rfl, this] at he
      exact absurd he (by simp)
    | error e2 => rw [update_score_eq_of_find_err sb h hs a as2 e2 hf]
  | finish h a =>
    show (sb.finish_game h a).snd = sb
    cases hf : sb.find_game_index h a with
    | ok i =>
      have heq := finish_game_eq_of_find_ok sb h a i hf
      have : (sb.finish_game h a).fst = Except.ok () := by rw [heq]
      rw [show (sb.applyOp (Op.finish h a)).fst =
        (sb.finish_game h a).fst from rfl, this] at he
      exact absurd he (by simp)
    | error e2 => rw [finish_game_eq_of_find_err sb h a e2 hf]

/-- C5 witness: starting `A` against `C` while `A` is already playing fails
and leaves the one-game board exactly as it was. -/
theorem error_leaves_board_unchanged_witness :
    ((runOps [Op.start "A" "B"]).applyOp (Op.start "A" "C")).snd =
      runOps [Op.start "A" "B"] :=
  error_leaves_board_unchanged (runOps [Op.start "A" "B"]) (Op.start "A" "C")
    "A is currently playing a game" (by decide)

/-- C6: for distinct names, if either is on the board then `start_game`
fails with `"{name} is currently playing a game"`, naming the home name
whenever the home name is busy (it is checked first), and the away name
otherwise. -/
theorem start_busy_error (sb : ScoreBoard) (h a : String) (hne : h ≠ a)
    (hbusy : sb.hasTeam h = true ∨ sb.hasTeam a = true) :
    (sb.start_game h a).fst =
      Except.error ((if sb.hasTeam h = true then h else a) ++
        " is currently playing a game") := by
  unfold ScoreBoard.start_game
  rw [check_if_currently_playing_spec]
  rcases hbusy with hb | hb
  · simp [hne, hb]
  · cases hbh : sb.hasTeam h with
    | true => simp [hne, hbh]
    | false => simp [hne, hbh, hb]

/-- C6 witness: starting `B` against `C` while `B` is busy names `B`. -/
theorem start_busy_error_witness :
    ((runOps [Op.start "A" "B"]).start_game "B" "C").fst =
      Except.error "B is currently playing a game" := by
  have hb : (runOps [Op.start "A" "B"]).hasTeam "B" = true := by decide
  have := start_busy_error (runOps [Op.start "A" "B"]) "B" "C" (by decide) (Or.inl hb)
  rw [hb] at this
  simpa using this

/-- C7: a successful `start_game` appends exactly one new game with both
scores 0 whose start order is the current clock value — strictly greater
than the start order of every game on the board, and, since the clock never
decreases and is bumped past each assigned value, strictly greater than
every start order assigned before — and then re-sorts; the clock advances
by one. -/
theorem start_success_spec (sb : ScoreBoard) (h a : String) (hinv : Inv sb)
    (hok : (sb.start_game h a).fst = Except.ok ()) :
    (sb.start_game h a).snd.data =
      sortGames (sb.data ++ [⟨⟨h, 0⟩, ⟨a, 0⟩, sb.clock⟩]) ∧
    (∀ g ∈ sb.data, g.start_time < sb.clock) ∧
    (sb.start_game h a).snd.clock = sb.clock + 1 ∧
    (∀ (t : ScoreBoard) (op : Op), t.clock ≤ (t.applyOp op).snd.clock) := by
  refine ⟨?_, hinv.startsLt, ?_, clock_mono⟩
  · rw [start_game_snd_of_ok sb h a hok]
    exact rfl
  · rw [start_game_snd_of_ok sb h a hok]
    exact rfl

/-- C7 witness: starting `C` vs `D` on the one-game board appends the new
scoreless game with start order 1 and re-sorts. -/
theorem start_success_spec_witness :
    ((runOps [Op.start "A" "B"]).start_game "C" "D").snd.data =
      sortGames ((runOps [Op.start "A" "B"]).data ++
        [⟨⟨"C", 0⟩, ⟨"D", 0⟩, (runOps [Op.start "A" "B"]).clock⟩]) :=
  (start_success_spec (runOps [Op.start "A" "B"]) "C" "D"
    (inv_runOps _) (by decide)).1

/-- C8: `get_summary` renders, in the collection's current order, one string
per game formatted exactly as `"{home.name} {home.score} - {away.name}
{away.score}"`; it takes the board purely (no state is returned, so
consecutive calls agree), and the fresh board yields the empty sequence. -/
theorem get_summary_spec (sb : ScoreBoard) :
    sb.get_summary = sb.data.map (fun g =>
      g.home_team.name ++ " " ++ toString g.home_team.score ++ " - " ++
        g.away_team.name ++ " " ++ toString g.away_team.score) ∧
    ScoreBoard.new.get_summary = [] := by
  constructor
  · rw [get_summary_eq_map]
    refine congrArg (fun f => List.map f sb.data) (funext fun g => ?_)
    simp [Game.toStr, Team.toStr, String.append_assoc]
  · rfl

/-- C9: from any board satisfying the reachable-board invariant, a
successful `start_game A B` followed by `finish_game A B` succeeds and
restores exactly the previous collection, in the same order. -/
theorem start_finish_roundtrip (sb : ScoreBoard) (A B : String) (hinv : Inv sb)
    (hok : (sb.start_game A B).fst = Except.ok ()) :
    ((sb.start_game A B).snd.finish_game A B).fst = Except.ok () ∧
    ((sb.start_game A B).snd.finish_game A B).snd.data = sb.data := by
  obtain ⟨hne, hbh, hba⟩ := (start_game_ok_iff sb A B).mp hok
  have hsnd := start_game_snd_of_ok sb A B hok
  have hinv1 : Inv (sb.start_game A B).snd := inv_start sb A B hinv
  have hg0mem : (⟨⟨A, 0⟩, ⟨B, 0⟩, sb.clock⟩ : Game) ∈ (sb.start_game A B).snd.data := by
    rw [hsnd]
    show _ ∈ sortGames _
    rw [mem_sortGames]
    exact List.mem_append.mpr (Or.inr (List.mem_singleton.mpr rfl))
  obtain ⟨i, hf, hgi⟩ := find_game_index_complete (sb.start_game A B).snd A B
    ⟨⟨A, 0⟩, ⟨B, 0⟩, sb.clock⟩ hinv1.disj hg0mem rfl rfl
  have hfin := finish_game_eq_of_find_ok (sb.start_game A B).snd A B i hf
  obtain ⟨hlen, _, _⟩ := find_game_index_ok (sb.start_game A B).snd A B i hf
  constructor
  · rw [hfin]
  · rw [hfin]
    show sortGames ((sb.start_game A B).snd.data.eraseIdx i) = sb.data
    have hsorted_erase : ((sb.start_game A B).snd.data.eraseIdx i).Pairwise gameLeP :=
      hinv1.sorted.sublist (List.eraseIdx_sublist _ i)
    rw [sortGames_of_sorted _ hsorted_erase]
    have hperm1 : List.Perm
        ((sb.start_game A B).snd.data.getD i default ::
          (sb.start_game A B).snd.data.eraseIdx i)
        (sb.start_game A B).snd.data :=
      cons_eraseIdx_perm _ i hlen
    rw [hgi] at hperm1
    have hperm2 : List.Perm (sb.start_game A B).snd.data
        ((⟨⟨A, 0⟩, ⟨B, 0⟩, sb.clock⟩ : Game) :: sb.data) := by
      rw [hsnd]
      exact (sortGames_perm _).trans (List.perm_append_singleton _ _)
    have hperm3 : List.Perm ((sb.start_game A B).snd.data.eraseIdx i) sb.data :=
      (List.Perm.cons_inv (hperm1.trans hperm2))
    have hne_erase : ((sb.start_game A B).snd.data.eraseIdx i).Pairwise
        (fun g₁ g₂ => g₁.start_time ≠ g₂.start_time) :=
      hinv1.startsNe.sublist (List.eraseIdx_sublist _ i)
    exact sorted_unique _ sb.data hperm3 hsorted_erase hinv.sorted hne_erase

/-- C9 witness: on the one-game board, starting then finishing `C` vs `D`
gives back exactly the one-game collection. -/
theorem start_finish_roundtrip_witness :
    (((runOps [Op.start "A" "B"]).start_game "C" "D").snd.finish_game "C" "D").snd.data =
      (runOps [Op.start "A" "B"]).data :=
  (start_finish_roundtrip (runOps [Op.start "A" "B"]) "C" "D"
    (inv_runOps _) (by decide)).2

/-- C10: a sequence of successful operations — two starts and one update
whose two scores are each within `u8` range — reaches a board of two games
(so the sort comparator is evaluated) on which one game's scores sum to
300 > 255: the `u8` addition in `Game::get_total_score` overflows there
(panic in checked builds; here modelled with its wrap-around value, which
differs from the mathematical sum). -/
theorem total_score_overflow_reachable :
    opsSucceed ScoreBoard.new overflowOps ∧
    2 ≤ (runOps overflowOps).data.length ∧
    ∃ g ∈ (runOps overflowOps).data,
      255 < g.home_team.score + g.away_team.score ∧
      g.get_total_score ≠ g.home_team.score + g.away_team.score := by
  exact ⟨by decide, by decide, by decide⟩

end Scoreboard
